import Mathlib

/-!
Verification of the crypto analyzer app (src/app.py) against its
natural-language specification.

The program is shallowly embedded over the rationals: pandas/numpy float
series become lists of rationals, and cells whose float value is non-finite
(NaN or an infinity, which the program treats as undefined data, never as a
number to compute with further) are modelled by an explicit `nonfinite`
constructor. Epoch-millisecond timestamps are naturals.

Embedded functions (from src/app.py):
- `calculate_rsi` (lines 70-81): diff / np.where gain-loss split, rolling
  mean with window `period` and min_periods=1, RS with infinity at
  avg_loss = 0, RSI = 100 - 100/(1+RS).
- the inner-join + volume_percent_mc + density reduction of
  `get_historical_data` (lines 44-63): pandas merge on the time key,
  volume/market_cap ratio, daily resample aggregation or stride
  subsampling.
- the per-row threshold classifier of `main` (line 151): Mua/Ban/Giu
  ("Buy"/"Sell"/"Hold") from RSI thresholds 30/70.
- `detect_signals`: the crossover SignalDetector, which is described in the
  spec but absent from src/app.py; it is modelled from the spec.
-/

namespace CryptoApp

/-- Value of one float cell: a finite rational, or `nonfinite` for a
non-finite float (NaN or an infinity), which the program only ever
propagates as missing data. -/
inductive FloatVal where
  | val (q : ℚ)
  | nonfinite
deriving DecidableEq, Repr, Inhabited

/-- Float division as the program observes it: finite over finite is exact
division, and division by zero (or by/of a non-finite cell) is non-finite. -/
def fdiv : FloatVal → FloatVal → FloatVal
  | .val a, .val b => if b = 0 then .nonfinite else .val (a / b)
  | _, _ => .nonfinite

/-- Float multiplication; a non-finite operand stays non-finite. -/
def fmul : FloatVal → FloatVal → FloatVal
  | .val a, .val b => .val (a * b)
  | _, _ => .nonfinite

/-- Embedding of pandas Series.diff() (src/app.py line 72): the first
element is missing (NaN), element i is prices[i] - prices[i-1]. -/
def diff : List ℚ → List (Option ℚ)
  | [] => []
  | p :: ps => none :: List.zipWith (fun b a => some (b - a)) ps (p :: ps)

/-- Embedding of np.where(delta > 0, delta, 0) on one cell (src/app.py
line 73); a NaN delta compares false, so the first cell becomes 0. -/
def gain_of : Option ℚ → ℚ
  | none => 0
  | some d => if d > 0 then d else 0

/-- Embedding of np.where(delta < 0, -delta, 0) on one cell (src/app.py
line 74); a NaN delta compares false, so the first cell becomes 0. -/
def loss_of : Option ℚ → ℚ
  | none => 0
  | some d => if d < 0 then -d else 0

/-- Mean of the rolling window ending at index i: the last `min (i+1) w`
elements up to and including index i (pandas rolling(window = w,
min_periods = 1), where early rows use a shrinking window). -/
def windowMean (w : Nat) (xs : List ℚ) (i : Nat) : ℚ :=
  let win := (xs.take (i + 1)).drop (i + 1 - w)
  win.sum / win.length

/-- Embedding of Series.rolling(window = w, min_periods = 1).mean()
(src/app.py lines 76-77). -/
def rollingMean (w : Nat) (xs : List ℚ) : List ℚ :=
  (List.range xs.length).map (windowMean w xs)

/-- Embedding of np.where(avg_loss != 0, avg_gain / avg_loss, np.inf)
(src/app.py line 79) on one cell; `none` stands for positive infinity. -/
def rs_of (g l : ℚ) : Option ℚ :=
  if l ≠ 0 then some (g / l) else none

/-- Embedding of rsi = 100 - (100 / (1 + rs)) (src/app.py line 80) on one
cell; at rs = +inf the float quotient 100/(1+inf) is exactly 0, so the
cell is exactly 100. -/
def rsi_of : Option ℚ → ℚ
  | some r => 100 - 100 / (1 + r)
  | none => 100

/-- Embedding of calculate_rsi (src/app.py lines 70-81). The source
defaults period to 14; callers here pass it explicitly. -/
def calculate_rsi (prices : List ℚ) (period : Nat) : List ℚ :=
  let delta := diff prices
  let gain := delta.map gain_of
  let loss := delta.map loss_of
  let avg_gain := rollingMean period gain
  let avg_loss := rollingMean period loss
  List.zipWith (fun g l => rsi_of (rs_of g l)) avg_gain avg_loss

/-- Reference gain at index i, as the spec words it: gain = max(delta, 0),
with the first row's undefined delta contributing zero gain. -/
def specGain (p : List ℚ) (i : Nat) : ℚ :=
  if i = 0 then 0 else max (p.getD i 0 - p.getD (i - 1) 0) 0

/-- Reference loss at index i, as the spec words it: loss = max(-delta, 0),
with the first row's undefined delta contributing zero loss. -/
def specLoss (p : List ℚ) (i : Nat) : ℚ :=
  if i = 0 then 0 else max (p.getD (i - 1) 0 - p.getD i 0) 0

/-- The reference gain series of the spec. -/
def specGains (p : List ℚ) : List ℚ :=
  (List.range p.length).map (specGain p)

/-- The reference loss series of the spec. -/
def specLosses (p : List ℚ) : List ℚ :=
  (List.range p.length).map (specLoss p)

/-- The RSI reference definition as the spec states it, row by row:
rolling simple moving averages of gain and loss over a window of 14 with
min_periods = 1, RS = avg_gain / avg_loss treated as positive infinity
when avg_loss = 0 (forcing RSI = 100), and RSI = 100 - 100/(1+RS). -/
def rsiSpec (p : List ℚ) : List ℚ :=
  (List.range p.length).map (fun i =>
    let ag := windowMean 14 (specGains p) i
    let al := windowMean 14 (specLosses p) i
    if al = 0 then 100 else 100 - 100 / (1 + ag / al))

/-- Row label of the tabular signal column: Mua ("Buy"), Ban ("Sell"),
Giu ("Hold"). -/
inductive Signal where
  | Mua
  | Ban
  | Giu
deriving DecidableEq, Repr

/-- Embedding of the per-row threshold classifier (src/app.py line 151):
"Mua" if x < 30 else ("Ban" if x > 70 else "Giu"); a NaN RSI would compare
false on both tests and fall through to Giu, but no NaN cell arises. -/
def signal_of (x : ℚ) : Signal :=
  if x < 30 then .Mua else if x > 70 then .Ban else .Giu

/-- The Signal column of the table: the classifier applied to each RSI
row (src/app.py line 151). -/
def signalColumn (rsi : List ℚ) : List Signal :=
  rsi.map signal_of

/-- Embedding of pandas DataFrame.merge(other, on = "time") with the
default inner join (src/app.py line 48): each left row pairs with every
right row carrying an equal time key, in left-then-right order. -/
def mergeOn {α β : Type} (l : List (Nat × α)) (r : List (Nat × β)) :
    List (Nat × α × β) :=
  l.flatMap (fun a =>
    (r.filter (fun b => b.1 = a.1)).map (fun b => (a.1, a.2, b.2)))

/-- One row of the joined frame of get_historical_data: time (epoch ms),
price, volume, market_cap and the derived volume_percent_mc column. -/
structure Row where
  time : Nat
  price : FloatVal
  volume : FloatVal
  market_cap : FloatVal
  volume_percent_mc : FloatVal
deriving DecidableEq, Repr, Inhabited

/-- Embedding of src/app.py lines 44-50: inner-join the three raw streams
on the time key and derive volume_percent_mc = volume / market_cap * 100
(non-finite when market_cap = 0, as float division by zero is). -/
def normalize (prices volumes market_caps : List (Nat × ℚ)) : List Row :=
  (mergeOn (mergeOn prices volumes) market_caps).map (fun x =>
    { time := x.1
      price := .val x.2.1.1
      volume := .val x.2.1.2
      market_cap := .val x.2.2
      volume_percent_mc := fmul (fdiv (.val x.2.1.2) (.val x.2.2)) (.val 100) })

/-- Milliseconds in one calendar day. -/
def msPerDay : Nat := 86400000

/-- Calendar day (UTC day index) of an epoch-millisecond timestamp. -/
def dayOf (t : Nat) : Nat := t / msPerDay

/-- Calendar days of the rows of a frame. -/
def dayList (df : List Row) : List Nat :=
  df.map (fun r => dayOf r.time)

/-- Earliest calendar day among the rows (0 for an empty frame). -/
def minDay : List Row → Nat
  | [] => 0
  | r :: rs => (dayList rs).foldr min (dayOf r.time)

/-- Latest calendar day among the rows (0 for an empty frame). -/
def maxDay : List Row → Nat
  | [] => 0
  | r :: rs => (dayList rs).foldr max (dayOf r.time)

/-- Number of distinct calendar days spanned by the frame's time range,
first day through last day inclusive. -/
def calendarDaysSpanned (df : List Row) : Nat :=
  maxDay df - minDay df + 1

/-- Finite cells of a float column (pandas aggregations skip NaN). -/
def valsOf (xs : List FloatVal) : List ℚ :=
  xs.filterMap (fun v => match v with | .val q => some q | .nonfinite => none)

/-- Mean aggregation of a float column: NaN on an empty (or all-NaN)
column, otherwise the mean of the finite cells. -/
def fmean (xs : List FloatVal) : FloatVal :=
  if (valsOf xs).length = 0 then .nonfinite
  else .val ((valsOf xs).sum / (valsOf xs).length)

/-- Sum aggregation of a float column: pandas sum skips NaN and returns 0
on an empty column. -/
def fsum (xs : List FloatVal) : FloatVal :=
  .val (valsOf xs).sum

/-- The aggregated row of one daily bin of the resample (src/app.py lines
55-60): price → mean, volume → sum, market_cap → mean,
volume_percent_mc → mean over the rows falling on calendar day d; the bin
is labelled with the start of day d. -/
def aggDay (df : List Row) (d : Nat) : Row :=
  let rows := df.filter (fun r => dayOf r.time = d)
  { time := d * msPerDay
    price := fmean (rows.map Row.price)
    volume := fsum (rows.map Row.volume)
    market_cap := fmean (rows.map Row.market_cap)
    volume_percent_mc := fmean (rows.map Row.volume_percent_mc) }

/-- Embedding of df.resample("D", on = "time").agg(...).reset_index()
(src/app.py lines 55-60): one aggregated row per calendar day from the
first day through the last day of the frame, empty days included. -/
def resampleDaily (df : List Row) : List Row :=
  if df.isEmpty then []
  else (List.range (maxDay df - minDay df + 1)).map
    (fun i => aggDay df (minDay df + i))

/-- Embedding of df.iloc[::k] (src/app.py line 63): keep the rows at
indices 0, k, 2k, .... -/
def strideEvery (k : Nat) (df : List Row) : List Row :=
  (df.enum.filter (fun p => p.1 % k = 0)).map Prod.snd

/-- Embedding of the density reduction of get_historical_data (src/app.py
lines 52-63): over 1000 rows, resample daily when days > 7 and stride by
len / 1000 + 1 otherwise; at most 1000 rows pass through unchanged. -/
def reduceDensity (days : Nat) (df : List Row) : List Row :=
  if df.length > 1000 then
    if days > 7 then resampleDaily df
    else strideEvery (df.length / 1000 + 1) df
  else df

/-- The pure core of get_historical_data (src/app.py lines 44-63): join,
derive volume_percent_mc, then reduce density. -/
def get_historical_data (days : Nat)
    (prices volumes market_caps : List (Nat × ℚ)) : List Row :=
  reduceDensity days (normalize prices volumes market_caps)

/-- Kind of a crossover signal. -/
inductive SigKind where
  | Buy
  | Sell
deriving DecidableEq, Repr

/-- Modelled from the spec: the Buy condition of the SignalDetector at
row i, RSI[i] < 30 and MACD[i] > MACD_signal[i] and
MACD[i-1] <= MACD_signal[i-1]; src/app.py contains no MACD or crossover
code, so this component exists only in the spec (section 4.3). -/
def crossBuy (rsi macd sig : List ℚ) (i : Nat) : Bool :=
  decide (rsi.getD i 0 < 30) &&
  decide (macd.getD i 0 > sig.getD i 0) &&
  decide (macd.getD (i - 1) 0 ≤ sig.getD (i - 1) 0)

/-- Modelled from the spec: the Sell condition of the SignalDetector at
row i, RSI[i] > 70 and MACD[i] < MACD_signal[i] and
MACD[i-1] >= MACD_signal[i-1]; src/app.py contains no MACD or crossover
code, so this component exists only in the spec (section 4.3). -/
def crossSell (rsi macd sig : List ℚ) (i : Nat) : Bool :=
  decide (rsi.getD i 0 > 70) &&
  decide (macd.getD i 0 < sig.getD i 0) &&
  decide (macd.getD (i - 1) 0 ≥ sig.getD (i - 1) 0)

/-- Modelled from the spec: the SignalDetector scan (spec section 4.3),
absent from src/app.py. Rows are scanned in order from i = 1; a qualifying
row emits its index with the Buy or Sell kind. -/
def detect_signals (rsi macd sig : List ℚ) : List (Nat × SigKind) :=
  (List.range rsi.length).filterMap (fun i =>
    if i = 0 then none
    else if crossBuy rsi macd sig i then some (i, SigKind.Buy)
    else if crossSell rsi macd sig i then some (i, SigKind.Sell)
    else none)

/-! Helper lemmas about the embedded functions. -/

theorem diff_length (p : List ℚ) : (diff p).length = p.length := by
  cases p with
  | nil => rfl
  | cons q ps => simp [diff]

theorem calculate_rsi_length (p : List ℚ) (w : Nat) :
    (calculate_rsi p w).length = p.length := by
  simp [calculate_rsi, rollingMean, diff_length]

theorem diff_getElem_zero (q : ℚ) (ps : List ℚ) :
    (diff (q :: ps)).get ⟨0, by simp [diff_length]⟩ = none := by
  simp [diff]

theorem diff_getElem_succ (p : List ℚ) (j : Nat) (h : j + 1 < p.length) :
    (diff p).get ⟨j + 1, by rw [diff_length]; exact h⟩ =
      some (p.get ⟨j + 1, h⟩ - p.get ⟨j, by omega⟩) := by
  match p with
  | [] => simp at h
  | q :: ps =>
    have hj : j < ps.length := by simpa using h
    simp [diff, List.getElem_zipWith]

theorem calculate_rsi_getElem (p : List ℚ) (w i : Nat)
    (h : i < (calculate_rsi p w).length) :
    (calculate_rsi p w).get ⟨i, h⟩ =
      rsi_of (rs_of (windowMean w ((diff p).map gain_of) i)
                    (windowMean w ((diff p).map loss_of) i)) := by
  have hp : i < p.length := by rwa [calculate_rsi_length] at h
  simp [calculate_rsi, rollingMean, diff_length, hp]

theorem rsi_rs (g l : ℚ) :
    rsi_of (rs_of g l) = if l = 0 then 100 else 100 - 100 / (1 + g / l) := by
  by_cases hl : l = 0 <;> simp [rs_of, rsi_of, hl]

theorem pos_part_eq_max (x : ℚ) : (if x > 0 then x else 0) = max x 0 := by
  rcases le_or_lt x 0 with hx | hx
  · rw [if_neg (not_lt.mpr hx), max_eq_right hx]
  · rw [if_pos hx, max_eq_left hx.le]

theorem neg_part_eq_max (x : ℚ) : (if x < 0 then -x else 0) = max (-x) 0 := by
  rcases lt_or_le x 0 with hx | hx
  · rw [if_pos hx, max_eq_left (by linarith)]
  · rw [if_neg (not_lt.mpr hx), max_eq_right (by linarith)]

/-! The claims. -/

/-- C9: indicator computation on an empty series is total and empty:
calculate_rsi on an empty price series yields an empty RSI series, and
labelling an empty series yields an empty Signal column. -/
theorem c9_empty_input_total :
    calculate_rsi [] 14 = [] ∧ signalColumn [] = [] := by
  constructor <;> rfl

/-- C8: the tabular threshold classifier labels row i Mua ("Buy") exactly
when RSI < 30, Ban ("Sell") exactly when RSI > 70, and Giu ("Hold")
otherwise, for every row of the series. -/
theorem c8_threshold_labels (xs : List ℚ) (i : Nat) (h : i < xs.length) :
    ((signalColumn xs).getD i .Giu = .Mua ↔ xs.getD i 0 < 30) ∧
    ((signalColumn xs).getD i .Giu = .Ban ↔ xs.getD i 0 > 70) ∧
    ((signalColumn xs).getD i .Giu = .Giu ↔
      ¬ xs.getD i 0 < 30 ∧ ¬ xs.getD i 0 > 70) := by
  have h2 : i < (signalColumn xs).length := by simpa [signalColumn] using h
  have key : (signalColumn xs).getD i .Giu = signal_of (xs.getD i 0) := by
    rw [List.getD_eq_getElem _ _ h2, List.getD_eq_getElem _ _ h]
    simp [signalColumn]
  rw [key]
  generalize xs.getD i 0 = x
  by_cases h30 : x < 30
  · have h70 : ¬ x > 70 := by linarith
    simp only [signal_of, if_pos h30]
    refine ⟨?_, ?_, ?_⟩ <;> simp [h30, h70]
  · by_cases h70 : x > 70
    · simp only [signal_of, if_neg h30, if_pos h70]
      refine ⟨?_, ?_, ?_⟩ <;> simp [h30, h70]
    · simp only [signal_of, if_neg h30, if_neg h70]
      refine ⟨?_, ?_, ?_⟩ <;> simp [h30, h70]

/-- Witness for C8 at the concrete series [25, 80, 50], row 1. -/
theorem c8_threshold_labels_witness :
    ((signalColumn [25, 80, 50]).getD 1 .Giu = .Mua ↔
      ([25, 80, 50] : List ℚ).getD 1 0 < 30) ∧
    ((signalColumn [25, 80, 50]).getD 1 .Giu = .Ban ↔
      ([25, 80, 50] : List ℚ).getD 1 0 > 70) ∧
    ((signalColumn [25, 80, 50]).getD 1 .Giu = .Giu ↔
      ¬ ([25, 80, 50] : List ℚ).getD 1 0 < 30 ∧
      ¬ ([25, 80, 50] : List ℚ).getD 1 0 > 70) :=
  c8_threshold_labels [25, 80, 50] 1 (by simp)

theorem windowMean_head (w : Nat) (hw : 0 < w) (x : ℚ) (xs : List ℚ) :
    windowMean w (x :: xs) 0 = x := by
  have h1 : 1 - w = 0 := by omega
  simp [windowMean, h1]

theorem gains_eq (p : List ℚ) : (diff p).map gain_of = specGains p := by
  apply List.ext_getElem
  · simp [diff_length, specGains]
  · intro i h1 h2
    have hip : i < p.length := by simpa [diff_length] using h1
    simp only [List.getElem_map, specGains, List.getElem_range]
    cases i with
    | zero =>
      cases p with
      | nil => simp at hip
      | cons q ps =>
        have hz := diff_getElem_zero q ps
        rw [List.get_eq_getElem] at hz
        rw [hz]
        simp [gain_of, specGain]
    | succ j =>
      have hjp : j < p.length := by omega
      have hs := diff_getElem_succ p j hip
      rw [List.get_eq_getElem] at hs
      rw [hs]
      simp only [gain_of, List.get_eq_getElem]
      rw [pos_part_eq_max]
      simp [specGain, List.getElem?_eq_getElem hip, List.getElem?_eq_getElem hjp]

theorem losses_eq (p : List ℚ) : (diff p).map loss_of = specLosses p := by
  apply List.ext_getElem
  · simp [diff_length, specLosses]
  · intro i h1 h2
    have hip : i < p.length := by simpa [diff_length] using h1
    simp only [List.getElem_map, specLosses, List.getElem_range]
    cases i with
    | zero =>
      cases p with
      | nil => simp at hip
      | cons q ps =>
        have hz := diff_getElem_zero q ps
        rw [List.get_eq_getElem] at hz
        rw [hz]
        simp [loss_of, specLoss]
    | succ j =>
      have hjp : j < p.length := by omega
      have hs := diff_getElem_succ p j hip
      rw [List.get_eq_getElem] at hs
      rw [hs]
      simp only [loss_of, List.get_eq_getElem]
      rw [neg_part_eq_max, neg_sub]
      simp [specLoss, List.getElem?_eq_getElem hip, List.getElem?_eq_getElem hjp]

/-- C1: for every non-empty price series, calculate_rsi with period 14
equals the reference RSI definition of the spec (per-step delta, gain and
loss split by max, rolling simple moving averages with min_periods = 1,
RS treated as positive infinity when avg_loss = 0 so RSI = 100, final
RSI = 100 - 100/(1+RS)). -/
theorem c1_rsi_matches_reference (p : List ℚ) (_hne : p ≠ []) :
    calculate_rsi p 14 = rsiSpec p := by
  apply List.ext_getElem
  · simp [calculate_rsi_length, rsiSpec]
  · intro i h1 h2
    have hl := calculate_rsi_getElem p 14 i h1
    rw [List.get_eq_getElem] at hl
    rw [hl, gains_eq, losses_eq]
    simp only [rsiSpec, List.getElem_map, List.getElem_range]
    rw [rsi_rs]

/-- Witness for C1 at the concrete price series [1, 3, 2]. -/
theorem c1_rsi_matches_reference_witness :
    calculate_rsi [1, 3, 2] 14 = rsiSpec [1, 3, 2] :=
  c1_rsi_matches_reference [1, 3, 2] (by simp)

/-- C10: on every non-empty price series the RSI column has a (defined)
value for every row — in particular it has full length — and the first
row's RSI is exactly 100 (the first delta is missing and contributes zero
gain and zero loss, so avg_loss = 0 there and RS is infinite), so the
threshold classifier labels the first row Ban ("Sell"). -/
theorem c10_first_row_sell (p : List ℚ) (h : p ≠ []) :
    (calculate_rsi p 14).length = p.length ∧
    (calculate_rsi p 14).getD 0 0 = 100 ∧
    (signalColumn (calculate_rsi p 14)).getD 0 .Giu = .Ban := by
  obtain ⟨q, ps, rfl⟩ := List.exists_cons_of_ne_nil h
  have hlen := calculate_rsi_length (q :: ps) 14
  have h0 : 0 < (calculate_rsi (q :: ps) 14).length := by rw [hlen]; simp
  have h100 : (calculate_rsi (q :: ps) 14).getD 0 0 = 100 := by
    rw [List.getD_eq_getElem _ _ h0]
    have hg := calculate_rsi_getElem (q :: ps) 14 0 h0
    rw [List.get_eq_getElem] at hg
    rw [hg]
    have hcons : (diff (q :: ps)).map loss_of =
        0 :: (List.zipWith (fun b a => some (b - a)) ps (q :: ps)).map loss_of := by
      simp [diff, loss_of]
    rw [hcons, windowMean_head 14 (by norm_num)]
    simp [rs_of, rsi_of]
  have hs0 : 0 < (signalColumn (calculate_rsi (q :: ps) 14)).length := by
    simpa [signalColumn] using h0
  have hsig : (signalColumn (calculate_rsi (q :: ps) 14)).getD 0 .Giu = .Ban := by
    rw [List.getD_eq_getElem _ _ hs0]
    simp only [signalColumn, List.getElem_map]
    rw [show (calculate_rsi (q :: ps) 14)[0] = (calculate_rsi (q :: ps) 14).getD 0 0 from
      (List.getD_eq_getElem _ _ h0).symm]
    rw [h100]
    norm_num [signal_of]
  exact ⟨hlen, h100, hsig⟩

/-- Witness for C10 at the concrete price series [1, 2]. -/
theorem c10_first_row_sell_witness :
    (calculate_rsi [1, 2] 14).length = ([1, 2] : List ℚ).length ∧
    (calculate_rsi [1, 2] 14).getD 0 0 = 100 ∧
    (signalColumn (calculate_rsi [1, 2] 14)).getD 0 .Giu = .Ban :=
  c10_first_row_sell [1, 2] (by simp)

theorem gain_of_nonneg (d : Option ℚ) : 0 ≤ gain_of d := by
  cases d with
  | none => simp [gain_of]
  | some x =>
    simp only [gain_of]
    split <;> linarith

theorem loss_of_nonneg (d : Option ℚ) : 0 ≤ loss_of d := by
  cases d with
  | none => simp [loss_of]
  | some x =>
    simp only [loss_of]
    split <;> linarith

theorem windowMean_nonneg (w : Nat) (xs : List ℚ) (i : Nat)
    (hxs : ∀ y ∈ xs, 0 ≤ y) : 0 ≤ windowMean w xs i := by
  simp only [windowMean]
  apply div_nonneg
  · apply List.sum_nonneg
    intro y hy
    exact hxs y (List.mem_of_mem_take (List.mem_of_mem_drop hy))
  · exact Nat.cast_nonneg _

/-- C6: every RSI value the program produces lies between 0 and 100
inclusive. -/
theorem c6_rsi_bounds (p : List ℚ) (x : ℚ) (hx : x ∈ calculate_rsi p 14) :
    0 ≤ x ∧ x ≤ 100 := by
  obtain ⟨i, hi, rfl⟩ := List.mem_iff_getElem.mp hx
  have hg := calculate_rsi_getElem p 14 i hi
  rw [List.get_eq_getElem] at hg
  rw [hg]
  have hGnn : 0 ≤ windowMean 14 ((diff p).map gain_of) i := by
    apply windowMean_nonneg
    intro y hy
    obtain ⟨d, _, rfl⟩ := List.mem_map.mp hy
    exact gain_of_nonneg d
  have hLnn : 0 ≤ windowMean 14 ((diff p).map loss_of) i := by
    apply windowMean_nonneg
    intro y hy
    obtain ⟨d, _, rfl⟩ := List.mem_map.mp hy
    exact loss_of_nonneg d
  rw [rsi_rs]
  by_cases hL0 : windowMean 14 ((diff p).map loss_of) i = 0
  · rw [if_pos hL0]
    norm_num
  · rw [if_neg hL0]
    have hLpos : 0 < windowMean 14 ((diff p).map loss_of) i :=
      lt_of_le_of_ne hLnn (Ne.symm hL0)
    have hr : 0 ≤ windowMean 14 ((diff p).map gain_of) i /
        windowMean 14 ((diff p).map loss_of) i := div_nonneg hGnn hLpos.le
    constructor
    · have hd : 100 / (1 + windowMean 14 ((diff p).map gain_of) i /
          windowMean 14 ((diff p).map loss_of) i) ≤ 100 :=
        div_le_self (by norm_num) (by linarith)
      linarith
    · have hd : 0 ≤ 100 / (1 + windowMean 14 ((diff p).map gain_of) i /
          windowMean 14 ((diff p).map loss_of) i) := by positivity
      linarith

/-- Witness for C6 at the one-element price series [1], whose single RSI
value is 100. -/
theorem c6_rsi_bounds_witness : (0 : ℚ) ≤ 100 ∧ (100 : ℚ) ≤ 100 :=
  c6_rsi_bounds [1] 100
    (by norm_num [calculate_rsi, diff, gain_of, loss_of, rollingMean,
      windowMean, rs_of, rsi_of])

/-- C7: on a strictly increasing price series longer than the period 14,
every rolling average loss is 0, and so every computed RSI value is
exactly 100. -/
theorem c7_rsi_saturation (p : List ℚ) (hinc : List.Chain' (· < ·) p)
    (hlen : 14 < p.length) :
    (∀ y ∈ rollingMean 14 ((diff p).map loss_of), y = 0) ∧
    (∀ x ∈ calculate_rsi p 14, x = 100) := by
  have hloss : ∀ z ∈ (diff p).map loss_of, z = 0 := by
    intro z hz
    obtain ⟨d, hd, rfl⟩ := List.mem_map.mp hz
    obtain ⟨j, hj, rfl⟩ := List.mem_iff_getElem.mp hd
    cases j with
    | zero =>
      cases p with
      | nil => simp at hlen
      | cons q ps =>
        have hz0 := diff_getElem_zero q ps
        rw [List.get_eq_getElem] at hz0
        rw [hz0]
        rfl
    | succ k =>
      have hkp : k + 1 < p.length := by rwa [diff_length] at hj
      have hs := diff_getElem_succ p k hkp
      rw [List.get_eq_getElem] at hs
      rw [hs]
      have hlt := List.chain'_iff_get.mp hinc k (by omega)
      simp only [List.get_eq_getElem] at hlt
      simp only [loss_of, List.get_eq_getElem]
      rw [if_neg (by linarith)]
  have hwm : ∀ i, windowMean 14 ((diff p).map loss_of) i = 0 := by
    intro i
    simp only [windowMean]
    rw [List.sum_eq_zero
      (fun y hy => hloss y (List.mem_of_mem_take (List.mem_of_mem_drop hy)))]
    simp
  constructor
  · intro y hy
    obtain ⟨i, _, rfl⟩ := List.mem_map.mp hy
    exact hwm i
  · intro x hx
    obtain ⟨i, hi, rfl⟩ := List.mem_iff_getElem.mp hx
    have hg := calculate_rsi_getElem p 14 i hi
    rw [List.get_eq_getElem] at hg
    rw [hg, hwm i]
    simp [rs_of, rsi_of]

/-- Witness for C7 at the strictly increasing 15-element price series
1, 2, ..., 15. -/
theorem c7_rsi_saturation_witness :
    (∀ y ∈ rollingMean 14
      ((diff [1, 2, 3, 4, 5, 6, 7, 8, 9, 10, 11, 12, 13, 14, 15]).map loss_of),
      y = 0) ∧
    (∀ x ∈ calculate_rsi [1, 2, 3, 4, 5, 6, 7, 8, 9, 10, 11, 12, 13, 14, 15] 14,
      x = 100) :=
  c7_rsi_saturation [1, 2, 3, 4, 5, 6, 7, 8, 9, 10, 11, 12, 13, 14, 15]
    (by norm_num [List.chain'_cons]) (by simp)

/-- C5: every normalized row's volume_percent_mc equals
volume / market_cap * 100, except that a zero market cap yields the
non-finite (undefined, propagated, never raising) cell. -/
theorem c5_volume_percent_mc (ps vs ms : List (Nat × ℚ)) (r : Row)
    (hr : r ∈ normalize ps vs ms) (v m : ℚ)
    (hv : r.volume = .val v) (hm : r.market_cap = .val m) :
    r.volume_percent_mc = if m = 0 then FloatVal.nonfinite
      else FloatVal.val (v / m * 100) := by
  obtain ⟨x, _, rfl⟩ := List.mem_map.mp hr
  simp only at hv hm
  have hv2 : x.2.1.2 = v := by simpa using hv
  have hm2 : x.2.2 = m := by simpa using hm
  simp only [hv2, hm2]
  by_cases hm0 : m = 0 <;> simp [fdiv, fmul, hm0]

/-- Witness for C5 at a joined row with market_cap = 0, whose ratio cell
is the non-finite placeholder. -/
theorem c5_volume_percent_mc_witness :
    (Row.mk 1 (.val 5) (.val 20) (.val 0) .nonfinite).volume_percent_mc =
      if (0 : ℚ) = 0 then FloatVal.nonfinite else FloatVal.val (20 / 0 * 100) :=
  c5_volume_percent_mc [(1, 5)] [(1, 20)] [(1, 0)] _
    (by simp [normalize, mergeOn, fdiv, fmul]) 20 0 rfl rfl

/-- C2: the density reduction of the single-coin view: over 1000 joined
rows with days > 7 the series is resampled daily (price mean, volume sum,
market_cap mean, volume_percent_mc mean) and the output row count equals
the number of calendar days spanned; over 1000 rows with days at most 7
the series is stride-subsampled with stride row_count / 1000 + 1; at most
1000 rows pass through unchanged. -/
theorem c2_density_reduction (days : Nat) (df : List Row) :
    (df.length > 1000 → days > 7 →
      reduceDensity days df = resampleDaily df ∧
      (reduceDensity days df).length = calendarDaysSpanned df) ∧
    (df.length > 1000 → days ≤ 7 →
      reduceDensity days df = strideEvery (df.length / 1000 + 1) df) ∧
    (df.length ≤ 1000 → reduceDensity days df = df) := by
  refine ⟨?_, ?_, ?_⟩
  · intro hbig hdays
    have hne : ¬ df.isEmpty := by
      cases df with
      | nil => simp at hbig
      | cons a t => simp
    have heq : reduceDensity days df = resampleDaily df := by
      simp [reduceDensity, hbig, hdays]
    refine ⟨heq, ?_⟩
    rw [heq]
    simp [resampleDaily, hne, calendarDaysSpanned]
  · intro hbig hdays
    have h7 : ¬ days > 7 := by omega
    simp [reduceDensity, hbig, h7]
  · intro hsmall
    have hb : ¬ df.length > 1000 := by omega
    simp [reduceDensity, hb]

/-- A 1001-row frame with one row per calendar day, used as the witness
input of C2. -/
def bigDf : List Row :=
  (List.range 1001).map (fun i => ⟨i * msPerDay, .val 1, .val 1, .val 1, .val 100⟩)

/-- Witness for C2: the resample branch and the row-count bound at a
1001-row, 1001-day frame with days = 8; the stride branch at days = 3;
and the pass-through branch on the empty frame. -/
theorem c2_density_reduction_witness :
    (reduceDensity 8 bigDf = resampleDaily bigDf ∧
      (reduceDensity 8 bigDf).length = calendarDaysSpanned bigDf) ∧
    reduceDensity 3 bigDf = strideEvery (bigDf.length / 1000 + 1) bigDf ∧
    reduceDensity 8 [] = [] :=
  ⟨(c2_density_reduction 8 bigDf).1 (by simp [bigDf]) (by norm_num),
   (c2_density_reduction 3 bigDf).2.1 (by simp [bigDf]) (by norm_num),
   (c2_density_reduction 8 []).2.2 (by simp)⟩

/-- C4: the SignalDetector (modelled from the spec, since src/app.py has
no MACD or crossover code) emits a Buy at row i, i at least 1, exactly
when RSI[i] < 30 and MACD[i] > MACD_signal[i] and
MACD[i-1] <= MACD_signal[i-1]; concretely, MACD [-1, -1/2, 1/5] against
MACD_signal [0, 0, 0] and RSI [25, 25, 25] produces exactly one signal,
a Buy at index 2 (none at index 1). -/
theorem c4_buy_crossover (rsi macd sig : List ℚ) (i : Nat)
    (h1 : 1 ≤ i) (h2 : i < rsi.length) :
    ((i, SigKind.Buy) ∈ detect_signals rsi macd sig ↔
      (rsi.getD i 0 < 30 ∧ macd.getD i 0 > sig.getD i 0 ∧
        macd.getD (i - 1) 0 ≤ sig.getD (i - 1) 0)) ∧
    detect_signals [25, 25, 25] [-1, -1/2, 1/5] [0, 0, 0] =
      [(2, SigKind.Buy)] := by
  constructor
  · rw [detect_signals, List.mem_filterMap]
    constructor
    · rintro ⟨j, _, hfj⟩
      by_cases hj0 : j = 0
      · rw [if_pos hj0] at hfj
        exact absurd hfj (by simp)
      · rw [if_neg hj0] at hfj
        by_cases hb : crossBuy rsi macd sig j
        · rw [if_pos hb] at hfj
          have hji : j = i := congrArg Prod.fst (Option.some.inj hfj)
          subst hji
          simpa only [crossBuy, Bool.and_eq_true, decide_eq_true_eq,
            and_assoc] using hb
        · rw [if_neg hb] at hfj
          by_cases hs : crossSell rsi macd sig j
          · rw [if_pos hs] at hfj
            exact absurd hfj (by simp)
          · rw [if_neg hs] at hfj
            exact absurd hfj (by simp)
    · intro hcond
      refine ⟨i, List.mem_range.mpr h2, ?_⟩
      rw [if_neg (by omega)]
      have hb : crossBuy rsi macd sig i := by
        simp only [crossBuy, Bool.and_eq_true, decide_eq_true_eq]
        exact ⟨⟨hcond.1, hcond.2.1⟩, hcond.2.2⟩
      rw [if_pos hb]
  · norm_num [detect_signals, show List.range 3 = [0, 1, 2] from rfl,
      List.filterMap_cons, crossBuy, crossSell]

/-- Witness for C4 at the spec's concrete crossover example, row 2. -/
theorem c4_buy_crossover_witness :
    (((2 : Nat), SigKind.Buy) ∈
        detect_signals [25, 25, 25] [-1, -1/2, 1/5] [0, 0, 0] ↔
      (([25, 25, 25] : List ℚ).getD 2 0 < 30 ∧
        ([-1, -1/2, 1/5] : List ℚ).getD 2 0 > ([0, 0, 0] : List ℚ).getD 2 0 ∧
        ([-1, -1/2, 1/5] : List ℚ).getD (2 - 1) 0 ≤
          ([0, 0, 0] : List ℚ).getD (2 - 1) 0)) ∧
    detect_signals [25, 25, 25] [-1, -1/2, 1/5] [0, 0, 0] =
      [(2, SigKind.Buy)] :=
  c4_buy_crossover [25, 25, 25] [-1, -1/2, 1/5] [0, 0, 0] 2
    (by norm_num) (by simp)

/-! Lemmas about the inner join. -/

theorem len_le_one_nodup {α : Type} (l : List α) (h : l.length ≤ 1) :
    l.Nodup := by
  match l with
  | [] => simp
  | [a] => simp
  | a :: b :: t => simp at h

theorem filter_key_length_le_one {β : Type} (r : List (Nat × β))
    (hr : (r.map Prod.fst).Nodup) (k : Nat) :
    (r.filter (fun b => b.1 = k)).length ≤ 1 := by
  induction r with
  | nil => simp
  | cons b t ih =>
    rw [List.map_cons, List.nodup_cons] at hr
    by_cases hb : b.1 = k
    · have ht : t.filter (fun x => x.1 = k) = [] := by
        rw [List.filter_eq_nil_iff]
        intro x hx
        simp only [decide_eq_true_eq]
        intro hxk
        exact hr.1 (List.mem_map.mpr ⟨x, hx, hxk.trans hb.symm⟩)
      simp [List.filter_cons, hb, ht]
    · simp only [List.filter_cons, decide_eq_true_eq, hb, if_false]
      exact ih hr.2

theorem mergeOn_cons {α β : Type} (a : Nat × α) (l : List (Nat × α))
    (r : List (Nat × β)) :
    mergeOn (a :: l) r =
      (r.filter (fun b => b.1 = a.1)).map (fun b => (a.1, a.2, b.2)) ++
        mergeOn l r := by
  simp [mergeOn]

theorem mem_key_of_mem_mergeOn {α β : Type} {l : List (Nat × α)}
    {r : List (Nat × β)} {x : Nat × α × β} (hx : x ∈ mergeOn l r) :
    x.1 ∈ l.map Prod.fst ∧ x.1 ∈ r.map Prod.fst := by
  simp only [mergeOn, List.mem_flatMap, List.mem_map, List.mem_filter] at hx
  obtain ⟨a, ha, b, ⟨hb, hkey⟩, rfl⟩ := hx
  simp only [decide_eq_true_eq] at hkey
  exact ⟨List.mem_map.mpr ⟨a, ha, rfl⟩, List.mem_map.mpr ⟨b, hb, hkey⟩⟩

theorem mergeOn_length_le_left {α β : Type} (l : List (Nat × α))
    (r : List (Nat × β)) (hr : (r.map Prod.fst).Nodup) :
    (mergeOn l r).length ≤ l.length := by
  induction l with
  | nil => simp [mergeOn]
  | cons a t ih =>
    rw [mergeOn_cons, List.length_append, List.length_map, List.length_cons]
    have h1 := filter_key_length_le_one r hr a.1
    omega

theorem length_filter_split {β : Type} (r : List (Nat × β)) (k : Nat) :
    (r.filter (fun b => b.1 = k)).length +
      (r.filter (fun b => ¬ b.1 = k)).length = r.length := by
  induction r with
  | nil => rfl
  | cons b t ih =>
    by_cases hb : b.1 = k <;> simp [List.filter_cons, hb, ← ih] <;> omega

theorem mergeOn_filter_ne_eq {α β : Type} (l : List (Nat × α))
    (r : List (Nat × β)) (k : Nat) (hk : ∀ a ∈ l, a.1 ≠ k) :
    mergeOn l (r.filter (fun b => ¬ b.1 = k)) = mergeOn l r := by
  induction l with
  | nil => simp [mergeOn]
  | cons a t ih =>
    rw [mergeOn_cons, mergeOn_cons,
      ih (fun x hx => hk x (List.mem_cons_of_mem a hx))]
    congr 1
    rw [List.filter_filter]
    apply congrArg
    apply List.filter_congr
    intro b _
    by_cases hb : b.1 = a.1
    · have hak := hk a (List.mem_cons_self a t)
      simp [hb, hak]
    · simp [hb]

theorem mergeOn_length_le_right {α β : Type} (l : List (Nat × α))
    (r : List (Nat × β)) (hl : (l.map Prod.fst).Nodup) :
    (mergeOn l r).length ≤ r.length := by
  induction l generalizing r with
  | nil => simp [mergeOn]
  | cons a t ih =>
    rw [List.map_cons, List.nodup_cons] at hl
    rw [mergeOn_cons, List.length_append, List.length_map]
    have hka : ∀ x ∈ t, x.1 ≠ a.1 := by
      intro x hx hxa
      exact hl.1 (List.mem_map.mpr ⟨x, hx, hxa⟩)
    have hle := ih (r.filter (fun b => ¬ b.1 = a.1)) hl.2
    rw [mergeOn_filter_ne_eq t r a.1 hka] at hle
    have hsplit := length_filter_split r a.1
    omega

theorem mergeOn_keys_nodup {α β : Type} (l : List (Nat × α))
    (r : List (Nat × β)) (hl : (l.map Prod.fst).Nodup)
    (hr : (r.map Prod.fst).Nodup) :
    ((mergeOn l r).map Prod.fst).Nodup := by
  induction l with
  | nil => simp [mergeOn]
  | cons a t ih =>
    rw [List.map_cons, List.nodup_cons] at hl
    rw [mergeOn_cons, List.map_append]
    apply List.Nodup.append
    · rw [List.map_map]
      apply len_le_one_nodup
      rw [List.length_map]
      exact filter_key_length_le_one r hr a.1
    · exact ih hl.2
    · intro x hx1 hx2
      rw [List.map_map] at hx1
      obtain ⟨b, _, rfl⟩ := List.mem_map.mp hx1
      obtain ⟨y, hy, hyk⟩ := List.mem_map.mp hx2
      have hky := (mem_key_of_mem_mergeOn hy).1
      rw [hyk] at hky
      exact hl.1 hky

/-- Counterexample to C3 as stated: with a duplicated timestamp in the
volume stream, the pandas inner join duplicates the matching price row,
so the output is longer than the shortest input. -/
theorem c3_join_invariant_counterexample :
    ¬ ((normalize [(1, 10)] [(1, 20), (1, 30)] [(1, 40)]).length ≤
      min ([(1, (10 : ℚ))].length)
        (min ([(1, (20 : ℚ)), (1, 30)].length) ([(1, (40 : ℚ))].length))) := by
  simp [normalize, mergeOn]

/-- C3 (amended): when each raw input stream carries pairwise-distinct
timestamps, the normalized output's row count is at most the minimum of
the three input lengths; and unconditionally, every output row's
timestamp exists in all three raw inputs. -/
theorem c3_join_invariant (ps vs ms : List (Nat × ℚ)) :
    ((ps.map Prod.fst).Nodup → (vs.map Prod.fst).Nodup →
      (ms.map Prod.fst).Nodup →
      (normalize ps vs ms).length ≤
        min ps.length (min vs.length ms.length)) ∧
    (∀ r ∈ normalize ps vs ms,
      r.time ∈ ps.map Prod.fst ∧ r.time ∈ vs.map Prod.fst ∧
        r.time ∈ ms.map Prod.fst) := by
  constructor
  · intro hp hv hm
    have h1l := mergeOn_length_le_left ps vs hv
    have h1r := mergeOn_length_le_right ps vs hp
    have h1n := mergeOn_keys_nodup ps vs hp hv
    have h2l := mergeOn_length_le_left (mergeOn ps vs) ms hm
    have h2r := mergeOn_length_le_right (mergeOn ps vs) ms h1n
    have hlen : (normalize ps vs ms).length =
        (mergeOn (mergeOn ps vs) ms).length := by
      simp [normalize]
    omega
  · intro r hr
    obtain ⟨x, hx, rfl⟩ := List.mem_map.mp hr
    have h2 := mem_key_of_mem_mergeOn hx
    obtain ⟨y, hy, hyk⟩ := List.mem_map.mp h2.1
    have h1 := mem_key_of_mem_mergeOn hy
    rw [hyk] at h1
    exact ⟨h1.1, h1.2, h2.2⟩

/-- Witness for C3 (amended) at three duplicate-free streams. -/
theorem c3_join_invariant_witness :
    (normalize [(1, 10), (2, 11)] [(1, 20)] [(1, 40), (3, 41)]).length ≤
      min ([(1, (10 : ℚ)), (2, 11)].length)
        (min ([(1, (20 : ℚ))].length) ([(1, (40 : ℚ)), (3, 41)].length)) ∧
    (∀ r ∈ normalize [(1, 10), (2, 11)] [(1, 20)] [(1, 40), (3, 41)],
      r.time ∈ [(1, (10 : ℚ)), (2, 11)].map Prod.fst ∧
        r.time ∈ [(1, (20 : ℚ))].map Prod.fst ∧
        r.time ∈ [(1, (40 : ℚ)), (3, 41)].map Prod.fst) :=
  ⟨(c3_join_invariant [(1, 10), (2, 11)] [(1, 20)] [(1, 40), (3, 41)]).1
      (by simp) (by simp) (by simp),
   (c3_join_invariant [(1, 10), (2, 11)] [(1, 20)] [(1, 40), (3, 41)]).2⟩

end CryptoApp
